import Mathlib

/-!
Verification of the persistent application state store of the `aria` repository
(`src/hooks/usePersistentState.ts`).

The development embeds, as executable Lean definitions:

* the JSON-like data model of persisted state values (`JValue`);
* the recursive default-merge `mergeDefaults` (translated line by line from the
  TypeScript function of the same name);
* the initialization / load-precedence logic of `usePersistentState`
  (`loadInitial`), with the bootstrap snapshot, the backend read and
  deserialization modelled as an explicit environment;
* the debounced persistence effect with failure containment, as a step
  relation on an explicit store state (`Sys`, `step`);
* a heap-based (reference-passing) version of the merge (`mergeH`) used to
  reason about aliasing between the merge result and the defaults value.
-/

namespace Aria

/-- JSON-like values: the shapes that `JSON.parse` / `JSON.stringify` and the
JavaScript object model give to persisted state.  `undef` models the JavaScript
`undefined` value (a field explicitly set to `undefined`, as opposed to an
absent field). -/
inductive JValue where
  | null
  | undef
  | bool (b : Bool)
  | num (n : Int)
  | str (s : String)
  | arr (xs : List JValue)
  | obj (fs : List (String × JValue))

/-- First-match lookup of a field in a JavaScript object's field list
(`o[key]`; JavaScript objects never carry duplicate keys, and all operations
here consistently use the first match). -/
def getField : List (String × JValue) → String → Option JValue
  | [], _ => none
  | (k', v) :: rest, k => if k' = k then some v else getField rest k

/-- `o[key] = v`: replaces the value of an existing key in place (keeping its
position), or appends a new key at the end — JavaScript property-assignment
order semantics. -/
def setField : List (String × JValue) → String → JValue → List (String × JValue)
  | [], k, v => [(k, v)]
  | (k', v') :: rest, k, v =>
      if k' = k then (k, v) :: rest else (k', v') :: setField rest k v

/-- Whether a key occurs in a field list. -/
def containsKey : List (String × JValue) → String → Bool
  | [], _ => false
  | (k', _) :: rest, k => k' = k || containsKey rest k

/-- The guard `!loaded || typeof loaded !== 'object'` of `mergeDefaults`,
negated: the loaded value survives the guard (is spread and merged into)
exactly when it is a JavaScript object — a plain object or an array
(both are truthy and have `typeof === 'object'`); `null`, `undefined` and
primitives take the early `{ ...defaults }` return. -/
def isMergeable : JValue → Bool
  | .obj _ => true
  | .arr _ => true
  | _ => false

/-- Fields contributed by spreading an array: `{ ...xs }` exposes the array's
elements under their decimal index strings. -/
def arrFields : List JValue → Nat → List (String × JValue)
  | [], _ => []
  | v :: rest, i => (toString i, v) :: arrFields rest (i + 1)

/-- The own enumerable fields that `{ ...v }` copies: an object's fields, an
array's elements under index keys, nothing for other values. -/
def spreadFields : JValue → List (String × JValue)
  | .obj fs => fs
  | .arr xs => arrFields xs 0
  | _ => []

mutual

/-- Translation of `mergeDefaults(loaded, defaults)` from
`src/hooks/usePersistentState.ts`: if `loaded` is not a usable object, return
a copy of `defaults`; otherwise start from a shallow copy of `loaded` and, for
each field of `defaults`, fill in missing / `null` / `undefined` fields with
the default's value, recursing when the default's value is a non-array
object.  `defaults` is an object in every call the source makes (the
non-object case is the identity and is never exercised). -/
def mergeDefaults (loaded : JValue) : JValue → JValue
  | .obj dfs =>
      if isMergeable loaded then .obj (mergeFields (spreadFields loaded) dfs)
      else .obj dfs
  | d => d
termination_by structural d => d

/-- The `for (const key in defaults)` loop of `mergeDefaults`: `r` is the
evolving `result` object, read and written through `getField` / `setField`
exactly as the source reads `result[key]` and writes `result[key] = ...`. -/
def mergeFields (r : List (String × JValue)) :
    List (String × JValue) → List (String × JValue)
  | [] => r
  | (k, dv) :: rest =>
      let r' :=
        match getField r k, dv with
        | none, _ => setField r k dv
        | some .null, _ => setField r k dv
        | some .undef, _ => setField r k dv
        | some lv, .obj dfs2 => setField r k (mergeDefaults lv (.obj dfs2))
        | some _, _ => r
      mergeFields r' rest
termination_by structural dfs => dfs

end

/-- `getPath v p` follows a field path (a list of field names) through nested
named-field structures.  Sequences and primitives have no named fields, so a
non-empty path into them yields nothing; this is the notion of "field path
present in the default value" of the specification's data model, where
sequences are atomic. -/
def getPath : JValue → List String → Option JValue
  | v, [] => some v
  | .obj fs, k :: ks =>
      match getField fs k with
      | some v => getPath v ks
      | none => none
  | _, _ :: _ => none

/-- `getPathL v p` follows a field path through a *loaded* value the way the
running JavaScript program accesses properties: objects expose their fields
and arrays expose their elements under decimal index strings (exactly the
fields that the merge's `{ ...loaded }` spread copies); `null`, `undefined`
and primitives expose nothing. -/
def getPathL : JValue → List String → Option JValue
  | v, [] => some v
  | v, k :: ks =>
      match getField (spreadFields v) k with
      | some w => getPathL w ks
      | none => none

/-- The loaded value "is missing the field, or holds `null`/undefined, at the
path": property access yields nothing, `null` or `undefined` there. -/
def missingOrNull (l : JValue) (p : List String) : Bool :=
  match getPathL l p with
  | none => true
  | some .null => true
  | some .undef => true
  | some _ => false

/-- `v === null || v === undefined` (the test `loadedValue === undefined ||
loadedValue === null` of the merge loop). -/
def isNullish : JValue → Bool
  | .null => true
  | .undef => true
  | _ => false

/-- Whether a value is a named-field structure (a non-array, non-null
JavaScript object — the test guarding the recursive merge). -/
def isObjB : JValue → Bool
  | .obj _ => true
  | _ => false

mutual

/-- Well-formedness of a value as a JavaScript object graph: no object carries
two fields with the same name.  Every value produced by the JavaScript runtime
(object literals, `JSON.parse` output) satisfies this; the association-list
embedding needs it as an explicit hypothesis. -/
def wfB : JValue → Bool
  | .obj fs => wfFieldsB fs
  | _ => true
termination_by structural v => v

/-- Field lists with pairwise-distinct keys whose values are themselves
well-formed. -/
def wfFieldsB : List (String × JValue) → Bool
  | [] => true
  | (k, v) :: rest => !containsKey rest k && wfB v && wfFieldsB rest
termination_by structural fs => fs

end

/-- The body of one iteration of the `for (const key in defaults)` loop of
`mergeDefaults`, as a standalone function of the evolving result `r` and the
default entry `(k, dv)` (definitionally equal to the inlined `let r' := ...`
of `mergeFields`). -/
def mergeField (r : List (String × JValue)) (k : String) (dv : JValue) :
    List (String × JValue) :=
  match getField r k, dv with
  | none, _ => setField r k dv
  | some .null, _ => setField r k dv
  | some .undef, _ => setField r k dv
  | some lv, .obj dfs2 => setField r k (mergeDefaults lv (.obj dfs2))
  | some _, _ => r

/-- The value the merged result ends up holding at a defaults key `k`, as a
function of the loaded value found there (`none` = absent) and the default
value `dv`. -/
def mergedField : Option JValue → JValue → JValue
  | none, dv => dv
  | some .null, dv => dv
  | some .undef, dv => dv
  | some lv, .obj dfs2 => mergeDefaults lv (.obj dfs2)
  | some lv, _ => lv

/-- Pairwise-distinct keys of a field list (the part of `wfFieldsB` that does
not constrain the field values). -/
def nodupKeys : List (String × JValue) → Bool
  | [] => true
  | (k, _) :: rest => !containsKey rest k && nodupKeys rest

/-- JavaScript truthiness of a value, as tested by `if (window.INITIAL_APP_STATE)`
and `if (storedValue)`: `null`, `undefined`, `false`, `0` and the empty string
are falsy; objects and arrays are always truthy. -/
def truthy : JValue → Bool
  | .null => false
  | .undef => false
  | .bool b => b
  | .num n => n ≠ 0
  | .str s => s ≠ ""
  | .arr _ => true
  | .obj _ => true

/-- Outcome of `window.localStorage.getItem(key)`: a stored string, `null`
(no stored value), or a thrown error (backend unreachable). -/
inductive ReadRes where
  | ok (v : Option String)
  | err

/-- Outcome of `JSON.parse` on a stored string: a value, or a thrown
`SyntaxError` for unparsable text. -/
inductive ParseRes where
  | ok (v : JValue)
  | err

/-- The external world the `useState` initializer of `usePersistentState`
interacts with: the process-wide bootstrap snapshot slot
(`window.INITIAL_APP_STATE`; `none` models an absent / undefined slot), the
durable backend read for the store's key, and the deserializer. -/
structure Env where
  bootstrap : Option JValue
  stored : ReadRes
  parse : String → ParseRes

/-- The part of the initializer after the bootstrap check: read the backend,
deserialize a truthy stored string, reconcile against the defaults; any thrown
error (backend read or parse) is caught and `initialState` is returned.  The
returned `Bool` records whether `localStorage.getItem` was invoked. -/
def afterBootstrap (env : Env) (initialState : JValue) : JValue × Bool :=
  match env.stored with
  | .err => (initialState, true)
  | .ok none => (initialState, true)
  | .ok (some s) =>
      if s ≠ "" then
        match env.parse s with
        | .ok v => (mergeDefaults v initialState, true)
        | .err => (initialState, true)
      else (initialState, true)

/-- Translation of the `useState` initializer of `usePersistentState`
(load precedence): a *truthy* bootstrap snapshot short-circuits to
`mergeDefaults(snapshot, initialState)` without touching the backend;
otherwise the durable backend is consulted.  The `Bool` component records
whether the durable backend was read during initialization. -/
def loadInitial (env : Env) (initialState : JValue) : JValue × Bool :=
  match env.bootstrap with
  | some v =>
      if truthy v then (mergeDefaults v initialState, false)
      else afterBootstrap env initialState
  | none => afterBootstrap env initialState

/-- Outcome the durable backend reports for a `setItem` write attempt:
success, a quota-exceeded `DOMException` (`QuotaExceededError` /
`NS_ERROR_DOM_QUOTA_REACHED`), or any other failure. -/
inductive WriteRes where
  | ok
  | quota
  | other

/-- Observable state of one `usePersistentState` store instance, for the
debounced-persistence effect (lines 58-88 of the source):

* `state` — the current React state value;
* `pending` — the armed debounce timer together with the state value its
  callback closed over (`none`: no timer armed);
* `notified` — `quotaErrorNotified.current`;
* `writes` — the durable writes performed so far (in order, each carrying the
  serialized state value);
* `attempts` — every `setItem` call issued so far, successful or not;
* `warnings` — how many user-visible quota warnings (`alert` plus
  `console.warn`) have been emitted;
* `errLogs` — how many diagnostic log statements the persistence effect has
  emitted for failed writes (the source's `catch` block contains no logging
  call outside the quota branch, so no transition below increments this). -/
structure Sys where
  state : JValue
  pending : Option JValue
  notified : Bool
  writes : List JValue
  attempts : List JValue
  warnings : Nat
  errLogs : Nat

/-- Events driving one store instance:

* `set v` — the caller replaces the state with `v` (a `setState` call and the
  re-render plus effect re-run it triggers);
* `elapse` — the coalescing window of the armed timer passes with no
  intervening replacement, so its callback fires.

The fixed length of the window (1000 ms) is abstracted into the `elapse`
event: `elapse` can only occur for a timer that was armed and never canceled,
and a replacement issued within the window of the previous one corresponds to
two consecutive `set` events with no `elapse` between them. -/
inductive Ev where
  | set (v : JValue)
  | elapse

/-- One step of the store instance.  On `set`: React runs the previous
effect's cleanup (which clears any pending timer), then the effect body,
which returns immediately when `quotaErrorNotified` is set and otherwise arms
a fresh timer whose callback closes over the new state.  On `elapse`: the
callback serializes the captured state and writes it; a quota failure emits
the one-time warning and latches `quotaErrorNotified`; any other failure is
silently swallowed. -/
def step (backend : JValue → WriteRes) (s : Sys) : Ev → Sys
  | .set v =>
      { s with state := v, pending := if s.notified then none else some v }
  | .elapse =>
      match s.pending with
      | none => s
      | some v =>
          let s' := { s with pending := none, attempts := s.attempts ++ [v] }
          match backend v with
          | .ok => { s' with writes := s'.writes ++ [v] }
          | .quota =>
              if s'.notified then s'
              else { s' with notified := true, warnings := s'.warnings + 1 }
          | .other => s'

/-- A run of the store instance over a list of events. -/
def run (backend : JValue → WriteRes) (s : Sys) (evs : List Ev) : Sys :=
  evs.foldl (step backend) s

/-- The store instance right after construction: the initializer produced
`s0`, the first render committed, and the effect ran for the first time,
arming the debounce timer for the initial state. -/
def mkSys (s0 : JValue) : Sys :=
  { state := s0, pending := some s0, notified := false
    writes := [], attempts := [], warnings := 0, errLogs := 0 }

/-!
### Reference-passing (heap) model of the merge

The pure `mergeDefaults` above cannot express aliasing, so to settle the
"independent copy / no aliasing" claim we re-run the same source code over an
explicit heap: objects and arrays live at addresses, `{ ... }` spreads copy
field lists shallowly (the field *values*, including references, are shared),
and mutation is a heap write.
-/

/-- A JavaScript runtime value in the heap model: primitives are immediate,
objects and arrays are references into the heap. -/
inductive HVal where
  | null
  | undef
  | bool (b : Bool)
  | num (n : Int)
  | str (s : String)
  | ref (a : Nat)
deriving DecidableEq

/-- A heap cell: a JavaScript object (`isArr = false`) or array
(`isArr = true`, its elements stored under decimal index keys). -/
structure HObj where
  isArr : Bool
  fields : List (String × HVal)
deriving DecidableEq

/-- The heap: cell `a` is the object at address `a`; allocation appends. -/
abbrev Heap := List HObj

/-- First-match field lookup in a heap object's field list. -/
def getFieldH : List (String × HVal) → String → Option HVal
  | [], _ => none
  | (k', v) :: rest, k => if k' = k then some v else getFieldH rest k

/-- Property assignment on a heap object's field list. -/
def setFieldH : List (String × HVal) → String → HVal → List (String × HVal)
  | [], k, v => [(k, v)]
  | (k', v') :: rest, k, v =>
      if k' = k then (k, v) :: rest else (k', v') :: setFieldH rest k v

/-- The fields of the heap object at address `a` (empty for a dangling
address, which no JavaScript execution produces). -/
def hFieldsAt (h : Heap) (a : Nat) : List (String × HVal) :=
  match h[a]? with
  | some o => o.fields
  | none => []

/-- The guard of `mergeDefaults` in the heap model: only references (objects
and arrays) survive `!loaded || typeof loaded !== 'object'`. -/
def hIsMergeable : HVal → Bool
  | .ref _ => true
  | _ => false

/-- The own enumerable fields `{ ...v }` copies in the heap model. -/
def hSpread (h : Heap) : HVal → List (String × HVal)
  | .ref a => hFieldsAt h a
  | _ => []

/-- `typeof dv === 'object' && dv !== null && !Array.isArray(dv)`: a reference
to a non-array heap object. -/
def hIsPlainObjAt (h : Heap) (a : Nat) : Bool :=
  match h[a]? with
  | some o => !o.isArr
  | none => false

mutual

/-- `mergeDefaults` over the explicit heap (same source lines as the pure
`mergeDefaults`): the early return allocates `{ ...defaults }` — a fresh
top-level object sharing its field values, references included, with the
defaults object; the main path allocates `{ ...loaded }` and fills it in
field by field.  `fuel` bounds the recursion depth (the type `Heap` admits
cyclic object graphs, which the JavaScript recursion would not terminate on
either); `none` means fuel ran out. -/
def mergeH : Nat → Heap → HVal → Nat → Option (Heap × Nat)
  | 0, _, _, _ => none
  | fuel + 1, h, loaded, da =>
      if hIsMergeable loaded then
        match mergeFieldsH fuel h (hSpread h loaded) (hFieldsAt h da) with
        | some (h1, rfs) => some (h1 ++ [⟨false, rfs⟩], h1.length)
        | none => none
      else some (h ++ [⟨false, hFieldsAt h da⟩], h.length)
termination_by structural fuel => fuel

/-- The `for (const key in defaults)` loop of `mergeDefaults` in the heap
model; `r` is the field list of the fresh result object being populated. -/
def mergeFieldsH : Nat → Heap → List (String × HVal) → List (String × HVal) →
    Option (Heap × List (String × HVal))
  | 0, _, _, _ => none
  | _ + 1, h, r, [] => some (h, r)
  | fuel + 1, h, r, (k, dv) :: rest =>
      match getFieldH r k with
      | none => mergeFieldsH fuel h (setFieldH r k dv) rest
      | some .null => mergeFieldsH fuel h (setFieldH r k dv) rest
      | some .undef => mergeFieldsH fuel h (setFieldH r k dv) rest
      | some lv =>
          match dv with
          | .ref a2 =>
              if hIsPlainObjAt h a2 then
                match mergeH fuel h lv a2 with
                | some (h1, ra) => mergeFieldsH fuel h1 (setFieldH r k (.ref ra)) rest
                | none => none
              else mergeFieldsH fuel h r rest
          | _ => mergeFieldsH fuel h r rest
termination_by structural fuel => fuel

end

/-- The mutation `o.k = v` applied to the heap object at address `a`. -/
def writeFieldH (h : Heap) (a : Nat) (k : String) (v : HVal) : Heap :=
  match h[a]? with
  | some o => h.set a ⟨o.isArr, setFieldH o.fields k v⟩
  | none => h

/-- Reading `v.k1.k2...` through the heap (fuel-bounded for the same reason
as `mergeH`). -/
def readH : Nat → Heap → HVal → List String → Option HVal
  | _, _, v, [] => some v
  | 0, _, _, _ :: _ => none
  | fuel + 1, h, .ref a, k :: ks =>
      match getFieldH (hFieldsAt h a) k with
      | some w => readH fuel h w ks
      | none => none
  | _ + 1, _, _, _ :: _ => none

/-!
### Association-list and merge lemmas
-/

theorem getField_setField_self (r : List (String × JValue)) (k : String) (v : JValue) :
    getField (setField r k v) k = some v := by
  induction r with
  | nil => simp [setField, getField]
  | cons e rest ih =>
      obtain ⟨k', v'⟩ := e
      by_cases h : k' = k <;> simp [setField, getField, h, ih]

theorem getField_setField_ne (r : List (String × JValue)) (k' k : String) (v : JValue)
    (hne : k' ≠ k) : getField (setField r k' v) k = getField r k := by
  induction r with
  | nil => simp [setField, getField, hne]
  | cons e rest ih =>
      obtain ⟨k'', v''⟩ := e
      by_cases h : k'' = k' <;> by_cases h2 : k'' = k <;>
        simp_all [setField, getField]

theorem mergeFields_cons (r : List (String × JValue)) (k : String) (dv : JValue)
    (rest : List (String × JValue)) :
    mergeFields r ((k, dv) :: rest) = mergeFields (mergeField r k dv) rest := by
  have go : ∀ o, getField r k = o →
      mergeFields r ((k, dv) :: rest) = mergeFields (mergeField r k dv) rest := by
    intro o ho
    rcases o with _ | lv
    · simp [mergeFields.eq_2 r k rest dv ho, mergeField, ho]
    · cases lv <;> cases dv <;>
        first
        | (simp [mergeField, ho, mergeFields.eq_3, mergeFields.eq_4, mergeFields.eq_6]
           done)
        | (rw [mergeFields.eq_5 r k rest _ _ (by simp) (by simp) ho]
           simp [mergeField, ho])
  exact go _ rfl

theorem getField_mergeField_self (r : List (String × JValue)) (k : String) (dv : JValue) :
    getField (mergeField r k dv) k = some (mergedField (getField r k) dv) := by
  have go : ∀ o, getField r k = o →
      getField (mergeField r k dv) k = some (mergedField o dv) := by
    intro o ho
    rcases o with _ | lv
    · simp [mergeField, mergedField, ho, getField_setField_self]
    · cases lv <;> cases dv <;>
        simp [mergeField, mergedField, ho, getField_setField_self]
  exact go _ rfl

theorem getField_mergeField_ne (r : List (String × JValue)) (k' k : String) (dv : JValue)
    (hne : k' ≠ k) : getField (mergeField r k' dv) k = getField r k := by
  have go : ∀ o, getField r k' = o →
      getField (mergeField r k' dv) k = getField r k := by
    intro o ho
    rcases o with _ | lv
    · simp [mergeField, ho, getField_setField_ne _ _ _ _ hne]
    · cases lv <;> cases dv <;>
        simp [mergeField, ho, getField_setField_ne _ _ _ _ hne]
  exact go _ rfl

theorem getField_mergeFields_notMem (dfs : List (String × JValue))
    (r : List (String × JValue)) (k : String) (h : containsKey dfs k = false) :
    getField (mergeFields r dfs) k = getField r k := by
  induction dfs generalizing r with
  | nil => rfl
  | cons e rest ih =>
      obtain ⟨k', dv⟩ := e
      rw [containsKey] at h
      simp only [Bool.or_eq_false_iff, decide_eq_false_iff_not] at h
      rw [mergeFields_cons, ih _ h.2, getField_mergeField_ne _ _ _ _ h.1]

theorem getField_mergeFields (dfs : List (String × JValue)) (hk : nodupKeys dfs = true)
    (r : List (String × JValue)) (k : String) :
    getField (mergeFields r dfs) k =
      match getField dfs k with
      | none => getField r k
      | some dv => some (mergedField (getField r k) dv) := by
  induction dfs generalizing r with
  | nil => rfl
  | cons e rest ih =>
      obtain ⟨k', dv'⟩ := e
      rw [nodupKeys] at hk
      simp only [Bool.and_eq_true, Bool.not_eq_true', Bool.not_eq_true] at hk
      by_cases h : k' = k
      · subst h
        rw [mergeFields_cons, getField_mergeFields_notMem rest _ _ hk.1,
          getField_mergeField_self]
        simp [getField]
      · rw [mergeFields_cons, ih hk.2]
        have hrw := getField_mergeField_ne r k' k dv' h
        simp only [getField, if_neg h, hrw]

theorem nodupKeys_of_wfFieldsB (fs : List (String × JValue)) (h : wfFieldsB fs = true) :
    nodupKeys fs = true := by
  induction fs with
  | nil => rfl
  | cons e rest ih =>
      obtain ⟨k, v⟩ := e
      rw [wfFieldsB] at h
      simp only [Bool.and_eq_true, Bool.not_eq_true'] at h
      rw [nodupKeys]
      simp [h.1.1, ih h.2]

theorem wfB_of_getField (fs : List (String × JValue)) (h : wfFieldsB fs = true)
    (k : String) (v : JValue) (hg : getField fs k = some v) : wfB v = true := by
  induction fs with
  | nil => simp [getField] at hg
  | cons e rest ih =>
      obtain ⟨k', v'⟩ := e
      rw [wfFieldsB] at h
      simp only [Bool.and_eq_true, Bool.not_eq_true'] at h
      rw [getField] at hg
      by_cases hk : k' = k
      · rw [if_pos hk] at hg
        injection hg with hv
        subst hv
        exact h.1.2
      · rw [if_neg hk] at hg
        exact ih h.2 hg

theorem mergedField_nullish (lv dv : JValue) (h : isNullish lv = true) :
    mergedField (some lv) dv = dv := by
  cases lv <;> simp_all [mergedField, isNullish]

theorem mergedField_obj (lv : JValue) (dfs2 : List (String × JValue))
    (h : isNullish lv = false) :
    mergedField (some lv) (.obj dfs2) = mergeDefaults lv (.obj dfs2) := by
  cases lv <;> simp_all [mergedField, isNullish]

theorem mergedField_keep (lv dv : JValue) (h : isNullish lv = false)
    (h2 : isObjB dv = false) : mergedField (some lv) dv = lv := by
  cases lv <;> cases dv <;> simp_all [mergedField, isNullish, isObjB]

theorem exists_of_isObjB (v : JValue) (h : isObjB v = true) : ∃ fs, v = .obj fs := by
  cases v <;> simp_all [isObjB]

theorem getPath_cons_of_not_obj (v : JValue) (k : String) (ks : List String)
    (h : isObjB v = false) : getPath v (k :: ks) = none := by
  cases v <;> simp_all [getPath, isObjB]

theorem getPath_cons_some (fs : List (String × JValue)) (k : String) (ks : List String)
    (v : JValue) (h : getField fs k = some v) :
    getPath (.obj fs) (k :: ks) = getPath v ks := by
  simp [getPath, h]

theorem getPath_cons_none (fs : List (String × JValue)) (k : String) (ks : List String)
    (h : getField fs k = none) : getPath (.obj fs) (k :: ks) = none := by
  simp [getPath, h]

theorem missingOrNull_nil (v : JValue) : missingOrNull v [] = isNullish v := by
  cases v <;> simp [missingOrNull, getPathL, isNullish]

theorem missingOrNull_cons (l w : JValue) (k : String) (ks : List String)
    (h : getField (spreadFields l) k = some w) :
    missingOrNull l (k :: ks) = missingOrNull w ks := by
  simp [missingOrNull, getPathL, h]

theorem mergeDefaults_not_mergeable (l : JValue) (dfs : List (String × JValue))
    (h : isMergeable l = false) : mergeDefaults l (.obj dfs) = .obj dfs := by
  simp [mergeDefaults.eq_1, h]

theorem mergeDefaults_mergeable (l : JValue) (dfs : List (String × JValue))
    (h : isMergeable l = true) :
    mergeDefaults l (.obj dfs) = .obj (mergeFields (spreadFields l) dfs) := by
  simp [mergeDefaults.eq_1, h]

theorem mergeDefaults_completeness (p : List String) :
    ∀ (l : JValue) (dfs : List (String × JValue)),
      wfB (.obj dfs) = true → (getPath (.obj dfs) p).isSome = true →
      (getPath (mergeDefaults l (.obj dfs)) p).isSome = true := by
  induction p with
  | nil =>
      intro l dfs _ _
      cases hm : isMergeable l
      · rw [mergeDefaults_not_mergeable l dfs hm]; simp [getPath]
      · rw [mergeDefaults_mergeable l dfs hm]; simp [getPath]
  | cons k ks ih =>
      intro l dfs hwf hD
      have hwff : wfFieldsB dfs = true := by simpa [wfB] using hwf
      have hnd : nodupKeys dfs = true := nodupKeys_of_wfFieldsB dfs hwff
      cases hdk : getField dfs k with
      | none => rw [getPath_cons_none dfs k ks hdk] at hD; simp at hD
      | some dv =>
          rw [getPath_cons_some dfs k ks dv hdk] at hD
          cases hm : isMergeable l
          · rw [mergeDefaults_not_mergeable l dfs hm, getPath_cons_some dfs k ks dv hdk]
            exact hD
          · rw [mergeDefaults_mergeable l dfs hm]
            have hget : getField (mergeFields (spreadFields l) dfs) k =
                some (mergedField (getField (spreadFields l) k) dv) := by
              rw [getField_mergeFields dfs hnd (spreadFields l) k, hdk]
            rw [getPath_cons_some _ k ks _ hget]
            cases hlv : getField (spreadFields l) k with
            | none => simpa [mergedField] using hD
            | some lv =>
                cases hn : isNullish lv with
                | true => rw [mergedField_nullish lv dv hn]; exact hD
                | false =>
                    cases hobj : isObjB dv with
                    | false =>
                        cases ks with
                        | nil => rw [mergedField_keep lv dv hn hobj]; simp [getPath]
                        | cons k2 ks2 =>
                            rw [getPath_cons_of_not_obj dv k2 ks2 hobj] at hD
                            simp at hD
                    | true =>
                        obtain ⟨dfs2, rfl⟩ := exists_of_isObjB dv hobj
                        rw [mergedField_obj lv dfs2 hn]
                        exact ih lv dfs2 (wfB_of_getField dfs hwff k _ hdk) hD

theorem mergeDefaults_default_at_missing (p : List String) :
    ∀ (l : JValue) (dfs : List (String × JValue)),
      wfB (.obj dfs) = true → (getPath (.obj dfs) p).isSome = true →
      missingOrNull l p = true →
      getPath (mergeDefaults l (.obj dfs)) p = getPath (.obj dfs) p := by
  induction p with
  | nil =>
      intro l dfs _ _ hmiss
      rw [missingOrNull_nil] at hmiss
      have hm : isMergeable l = false := by
        cases l <;> simp_all [isNullish, isMergeable]
      rw [mergeDefaults_not_mergeable l dfs hm]
  | cons k ks ih =>
      intro l dfs hwf hD hmiss
      have hwff : wfFieldsB dfs = true := by simpa [wfB] using hwf
      have hnd : nodupKeys dfs = true := nodupKeys_of_wfFieldsB dfs hwff
      cases hdk : getField dfs k with
      | none => rw [getPath_cons_none dfs k ks hdk] at hD; simp at hD
      | some dv =>
          rw [getPath_cons_some dfs k ks dv hdk] at hD
          cases hm : isMergeable l
          · rw [mergeDefaults_not_mergeable l dfs hm]
          · rw [mergeDefaults_mergeable l dfs hm]
            have hget : getField (mergeFields (spreadFields l) dfs) k =
                some (mergedField (getField (spreadFields l) k) dv) := by
              rw [getField_mergeFields dfs hnd (spreadFields l) k, hdk]
            rw [getPath_cons_some _ k ks _ hget, getPath_cons_some dfs k ks dv hdk]
            cases hlv : getField (spreadFields l) k with
            | none => simp [mergedField]
            | some w =>
                have hmiss' : missingOrNull w ks = true := by
                  rw [missingOrNull_cons l w k ks hlv] at hmiss; exact hmiss
                cases hn : isNullish w with
                | true => rw [mergedField_nullish w dv hn]
                | false =>
                    cases ks with
                    | nil =>
                        rw [missingOrNull_nil, hn] at hmiss'
                        exact absurd hmiss' (by simp)
                    | cons k2 ks2 =>
                        cases hobj : isObjB dv with
                        | false =>
                            rw [getPath_cons_of_not_obj dv k2 ks2 hobj] at hD
                            simp at hD
                        | true =>
                            obtain ⟨dfs2, rfl⟩ := exists_of_isObjB dv hobj
                            rw [mergedField_obj w dfs2 hn]
                            exact ih w dfs2 (wfB_of_getField dfs hwff k _ hdk) hD hmiss'

theorem spreadFields_not_mergeable (l : JValue) (h : isMergeable l = false) :
    spreadFields l = [] := by
  cases l <;> simp_all [spreadFields, isMergeable]

theorem containsKey_eq_false_of_getField_none (fs : List (String × JValue)) (k : String)
    (h : getField fs k = none) : containsKey fs k = false := by
  induction fs with
  | nil => rfl
  | cons e rest ih =>
      obtain ⟨k', v⟩ := e
      rw [getField] at h
      rw [containsKey]
      by_cases hk : k' = k
      · rw [if_pos hk] at h; exact absurd h (by simp)
      · rw [if_neg hk] at h
        simp [hk, ih h]

theorem getPathL_cons_inv (l : JValue) (k : String) (ks : List String) (res : JValue)
    (h : getPathL l (k :: ks) = some res) :
    ∃ w, getField (spreadFields l) k = some w ∧ getPathL w ks = some res := by
  simp only [getPathL] at h
  cases hg : getField (spreadFields l) k with
  | none => rw [hg] at h; exact absurd h (by simp)
  | some w => rw [hg] at h; exact ⟨w, rfl, h⟩

theorem getPath_cons_inv (fs : List (String × JValue)) (k : String) (ks : List String)
    (res : JValue) (h : getPath (.obj fs) (k :: ks) = some res) :
    ∃ dv, getField fs k = some dv ∧ getPath dv ks = some res := by
  simp only [getPath] at h
  cases hg : getField fs k with
  | none => rw [hg] at h; exact absurd h (by simp)
  | some dv => rw [hg] at h; exact ⟨dv, rfl, h⟩

/-!
### Claim theorems
-/

/-- C1.  For every default structure `D` (a well-formed object) and every
loaded value `L` — including `null`, `undefined`, primitives, empty, partial,
or extraneous-field structures — `merge(L, D)` has a value at every field
path `D` has, and wherever `L` is missing the field or holds
`null`/`undefined` at that path (property access through `L`, with sequences
exposing their elements under index keys, yields nothing, `null` or
`undefined`), the result holds `D`'s value at that path. -/
theorem mergeDefaults_reconciliation (l : JValue) (dfs : List (String × JValue))
    (p : List String) (hwf : wfB (.obj dfs) = true)
    (hD : (getPath (.obj dfs) p).isSome = true) :
    (getPath (mergeDefaults l (.obj dfs)) p).isSome = true ∧
      (missingOrNull l p = true →
        getPath (mergeDefaults l (.obj dfs)) p = getPath (.obj dfs) p) :=
  ⟨mergeDefaults_completeness p l dfs hwf hD,
   fun hm => mergeDefaults_default_at_missing p l dfs hwf hD hm⟩

/-- Witness for C1 at a concrete partial loaded value: the default
`{a: {x: 0, y: 0}, b: 5}` merged with the loaded `{a: {x: 1}}` has a value at
the path `a.y`, which `L` is missing, and it is the default's `0`. -/
theorem mergeDefaults_reconciliation_witness :
    (getPath
        (mergeDefaults (.obj [("a", .obj [("x", .num 1)])])
          (.obj [("a", .obj [("x", .num 0), ("y", .num 0)]), ("b", .num 5)]))
        ["a", "y"]).isSome = true ∧
      getPath
        (mergeDefaults (.obj [("a", .obj [("x", .num 1)])])
          (.obj [("a", .obj [("x", .num 0), ("y", .num 0)]), ("b", .num 5)]))
        ["a", "y"] =
      getPath (.obj [("a", .obj [("x", .num 0), ("y", .num 0)]), ("b", .num 5)])
        ["a", "y"] :=
  ⟨(mergeDefaults_reconciliation (.obj [("a", .obj [("x", .num 1)])])
      [("a", .obj [("x", .num 0), ("y", .num 0)]), ("b", .num 5)] ["a", "y"] rfl rfl).1,
   (mergeDefaults_reconciliation (.obj [("a", .obj [("x", .num 1)])])
      [("a", .obj [("x", .num 0), ("y", .num 0)]), ("b", .num 5)] ["a", "y"] rfl rfl).2 rfl⟩

/-- C7.  Every field present in the loaded structure but absent from the
default survives the merge unchanged; in particular
`merge({a: 1, z: 9}, {a: 0})` yields `{a: 1, z: 9}` with the extraneous `z`
preserved in place. -/
theorem merge_preserves_extraneous :
    (∀ (fs dfs : List (String × JValue)) (k : String),
        getField dfs k = none →
        getPath (mergeDefaults (.obj fs) (.obj dfs)) [k] = getField fs k) ∧
      mergeDefaults (.obj [("a", .num 1), ("z", .num 9)]) (.obj [("a", .num 0)]) =
        .obj [("a", .num 1), ("z", .num 9)] := by
  constructor
  · intro fs dfs k hnone
    rw [mergeDefaults_mergeable (.obj fs) dfs rfl]
    have hck : containsKey dfs k = false := containsKey_eq_false_of_getField_none dfs k hnone
    have hres : getField (mergeFields (spreadFields (.obj fs)) dfs) k = getField fs k := by
      rw [getField_mergeFields_notMem dfs _ k hck]
      rfl
    cases hg : getField fs k with
    | none => rw [getPath_cons_none _ k [] (hres.trans hg)]
    | some v => rw [getPath_cons_some _ k [] v (hres.trans hg), getPath]
  · rfl

/-- Witness for C7: the extraneous field `z` of the loaded value is present
unchanged in the merged result. -/
theorem merge_preserves_extraneous_witness :
    getPath (mergeDefaults (.obj [("a", .num 1), ("z", .num 9)]) (.obj [("a", .num 0)]))
      ["z"] = some (.num 9) :=
  (merge_preserves_extraneous.1 [("a", .num 1), ("z", .num 9)] [("a", .num 0)] "z"
    rfl).trans rfl

/-- Counterexample to C10 as stated: at the path `a` the loaded value holds
the sequence `[7]` — a non-null, non-structure value — while the default
holds the nested structure `{x: 0}`; the merge does *not* discard the loaded
sequence and assign a copy of the default's substructure: it spreads the
sequence's elements as index-keyed fields into the merged result, yielding
`{0: 7, x: 0}` rather than `{x: 0}`. -/
theorem merge_sequence_not_discarded :
    getPathL (.obj [("a", .arr [.num 7])]) ["a"] = some (.arr [.num 7]) ∧
      isObjB (.arr [.num 7]) = false ∧
      (JValue.arr [.num 7] ≠ .null) ∧
      getPath (.obj [("a", .obj [("x", .num 0)])]) ["a"] = some (.obj [("x", .num 0)]) ∧
      getPath
          (mergeDefaults (.obj [("a", .arr [.num 7])]) (.obj [("a", .obj [("x", .num 0)])]))
          ["a"] = some (.obj [("0", .num 7), ("x", .num 0)]) ∧
      (JValue.obj [("0", .num 7), ("x", .num 0)] ≠ .obj [("x", .num 0)]) :=
  ⟨rfl, rfl, by simp, rfl, rfl, by simp⟩

/-- C10 as amended: if at some field path the loaded value holds a non-null
value that is neither a structure nor a sequence (a primitive or `undefined`)
while the default holds a nested non-sequence structure, the merge discards
the loaded value at that path and assigns the default's entire substructure
(sequences are instead spread field-wise into the merge, as the
counterexample records); either way the field-path completeness invariant
holds. -/
theorem merge_primitive_mismatch_uses_default (p : List String) :
    ∀ (l lv : JValue) (dfs dfs2 : List (String × JValue)),
      wfB (.obj dfs) = true →
      getPathL l p = some lv →
      isMergeable lv = false → lv ≠ .null →
      getPath (.obj dfs) p = some (.obj dfs2) →
      getPath (mergeDefaults l (.obj dfs)) p = some (.obj dfs2) := by
  induction p with
  | nil =>
      intro l lv dfs dfs2 _ hL hml _ hD
      simp only [getPathL] at hL
      injection hL with hL
      subst hL
      rw [mergeDefaults_not_mergeable l dfs hml]
      exact hD
  | cons k ks ih =>
      intro l lv dfs dfs2 hwf hL hml hnn hD
      have hwff : wfFieldsB dfs = true := by simpa [wfB] using hwf
      have hnd : nodupKeys dfs = true := nodupKeys_of_wfFieldsB dfs hwff
      obtain ⟨w, hw, hwks⟩ := getPathL_cons_inv l k ks lv hL
      obtain ⟨dv, hdk, hdv⟩ := getPath_cons_inv dfs k ks (.obj dfs2) hD
      cases hm : isMergeable l with
      | false =>
          rw [spreadFields_not_mergeable l hm] at hw
          exact absurd hw (by simp [getField])
      | true =>
          rw [mergeDefaults_mergeable l dfs hm]
          have hget : getField (mergeFields (spreadFields l) dfs) k =
              some (mergedField (some w) dv) := by
            rw [getField_mergeFields dfs hnd (spreadFields l) k, hdk, hw]
          rw [getPath_cons_some _ k ks _ hget]
          cases hn : isNullish w with
          | true => rw [mergedField_nullish w dv hn]; exact hdv
          | false =>
              cases ks with
              | nil =>
                  simp only [getPathL] at hwks
                  injection hwks with hwks
                  subst hwks
                  simp only [getPath] at hdv
                  injection hdv with hdv
                  subst hdv
                  rw [mergedField_obj w dfs2 hn, mergeDefaults_not_mergeable w dfs2 hml,
                    getPath]
              | cons k2 ks2 =>
                  cases hobj : isObjB dv with
                  | false =>
                      rw [getPath_cons_of_not_obj dv k2 ks2 hobj] at hdv
                      exact absurd hdv (by simp)
                  | true =>
                      obtain ⟨dfs3, rfl⟩ := exists_of_isObjB dv hobj
                      rw [mergedField_obj w dfs3 hn]
                      exact ih w lv dfs3 dfs2 (wfB_of_getField dfs hwff k _ hdk) hwks
                        hml hnn hdv

/-- Witness for the amended C10: the loaded `{a: 3}` holds the primitive `3`
where the default holds `{x: 0}`; the merge assigns the default substructure
there. -/
theorem merge_primitive_mismatch_uses_default_witness :
    getPath
        (mergeDefaults (.obj [("a", .num 3)]) (.obj [("a", .obj [("x", .num 0)])]))
        ["a"] = some (.obj [("x", .num 0)]) :=
  merge_primitive_mismatch_uses_default ["a"] (.obj [("a", .num 3)]) (.num 3)
    [("a", .obj [("x", .num 0)])] [("x", .num 0)] rfl rfl rfl (by simp) rfl

theorem run_set_burst (backend : JValue → WriteRes) (us : List JValue) (u : JValue) :
    ∀ s : Sys, s.notified = false →
      run backend s ((us ++ [u]).map Ev.set) = { s with state := u, pending := some u } := by
  induction us with
  | nil =>
      intro s hn
      simp [run, step, hn]
  | cons w us ih =>
      intro s hn
      have hstep : step backend s (.set w) = { s with state := w, pending := some w } := by
        simp [step, hn]
      simp only [List.cons_append, List.map_cons, run, List.foldl_cons]
      rw [hstep]
      exact ih { s with state := w, pending := some w } hn

/-- C2.  A burst of `N ≥ 1` state replacements, each issued within the
coalescing window of the previous one (consecutive `set` events with no
timer expiry in between, the first issued within the window armed at
construction), followed by the window elapsing, produces exactly one durable
write, carrying exactly the state of the final replacement: no intermediate
state of the burst is even attempted (each replacement cancels the pending
timer and arms a new one). -/
theorem debounce_burst_single_write (backend : JValue → WriteRes)
    (hok : ∀ v, backend v = .ok) (s0 : JValue) (vs : List JValue) (v : JValue) :
    run backend (mkSys s0) ((vs ++ [v]).map Ev.set ++ [Ev.elapse]) =
      { state := v, pending := none, notified := false,
        writes := [v], attempts := [v], warnings := 0, errLogs := 0 } := by
  unfold run
  rw [List.foldl_append]
  have hsets := run_set_burst backend vs v (mkSys s0) rfl
  unfold run at hsets
  rw [hsets]
  simp [step, hok v, mkSys]

/-- Witness for C2: a burst of two replacements then the window elapsing
yields the single write of the final state `2`. -/
theorem debounce_burst_single_write_witness :
    run (fun _ => WriteRes.ok) (mkSys (.num 0))
        [Ev.set (.num 1), Ev.set (.num 2), Ev.elapse] =
      { state := .num 2, pending := none, notified := false,
        writes := [.num 2], attempts := [.num 2], warnings := 0, errLogs := 0 } := by
  have h := debounce_burst_single_write (fun _ => WriteRes.ok) (fun _ => rfl)
    (.num 0) [.num 1] (.num 2)
  simpa using h

/-- After the quota warning has latched (`quotaErrorNotified` set, no timer
pending), no later event changes anything observable but the in-memory state:
no write attempt, no warning, no timer ever again, for the rest of the
instance's lifetime. -/
theorem run_notified_frozen (backend : JValue → WriteRes) (evs : List Ev) :
    ∀ s : Sys, s.notified = true → s.pending = none →
      (run backend s evs).notified = true ∧ (run backend s evs).pending = none ∧
      (run backend s evs).writes = s.writes ∧
      (run backend s evs).attempts = s.attempts ∧
      (run backend s evs).warnings = s.warnings := by
  induction evs with
  | nil => intro s h1 h2; exact ⟨h1, h2, rfl, rfl, rfl⟩
  | cons e evs ih =>
      intro s h1 h2
      cases e with
      | set v =>
          have hstep : step backend s (.set v) = { s with state := v, pending := none } := by
            simp [step, h1]
          simp only [run, List.foldl_cons]
          rw [hstep]
          exact ih { s with state := v, pending := none } h1 rfl
      | elapse =>
          have hstep : step backend s .elapse = s := by
            simp [step, h2]
          simp only [run, List.foldl_cons]
          rw [hstep]
          exact ih s h1 h2

/-- C3.  The first write failing with the quota condition emits exactly one
user-visible warning and latches the terminal `QuotaExceeded` state: over any
continuation of the instance's lifetime, however many further updates occur,
the warning count stays at one more than before the failure, no further write
attempt is ever issued, and the latch never resets. -/
theorem quota_terminal_single_warning (backend : JValue → WriteRes) (s : Sys)
    (v : JValue) (evs : List Ev) (h1 : s.notified = false) (h2 : s.pending = some v)
    (hq : backend v = .quota) :
    step backend s .elapse =
      { s with pending := none, attempts := s.attempts ++ [v], notified := true, warnings := s.warnings + 1 } ∧
    (run backend (step backend s .elapse) evs).warnings = s.warnings + 1 ∧
    (run backend (step backend s .elapse) evs).attempts = s.attempts ++ [v] ∧
    (run backend (step backend s .elapse) evs).writes = s.writes ∧
    (run backend (step backend s .elapse) evs).notified = true := by
  have hstep : step backend s .elapse =
      { s with pending := none, attempts := s.attempts ++ [v], notified := true, warnings := s.warnings + 1 } := by
    simp [step, h2, hq, h1]
  have hfrozen := run_notified_frozen backend evs (step backend s .elapse)
    (by rw [hstep]) (by rw [hstep])
  refine ⟨hstep, ?_, ?_, ?_, hfrozen.1⟩
  · rw [hfrozen.2.2.2.2, hstep]
  · rw [hfrozen.2.2.2.1, hstep]
  · rw [hfrozen.2.2.1, hstep]

/-- Witness for C3: from a freshly constructed store whose armed initial
write fails with quota, two further updates and an elapsed window change
nothing: one warning total, one attempt total, no writes. -/
theorem quota_terminal_single_warning_witness :
    step (fun _ => WriteRes.quota) (mkSys (.num 0)) .elapse =
      { mkSys (.num 0) with pending := none, attempts := [.num 0], notified := true, warnings := 1 } ∧
    (run (fun _ => WriteRes.quota) (step (fun _ => WriteRes.quota) (mkSys (.num 0)) .elapse)
        [Ev.set (.num 1), Ev.elapse, Ev.set (.num 2)]).warnings = 1 ∧
    (run (fun _ => WriteRes.quota) (step (fun _ => WriteRes.quota) (mkSys (.num 0)) .elapse)
        [Ev.set (.num 1), Ev.elapse, Ev.set (.num 2)]).attempts = [.num 0] ∧
    (run (fun _ => WriteRes.quota) (step (fun _ => WriteRes.quota) (mkSys (.num 0)) .elapse)
        [Ev.set (.num 1), Ev.elapse, Ev.set (.num 2)]).writes = [] ∧
    (run (fun _ => WriteRes.quota) (step (fun _ => WriteRes.quota) (mkSys (.num 0)) .elapse)
        [Ev.set (.num 1), Ev.elapse, Ev.set (.num 2)]).notified = true :=
  quota_terminal_single_warning (fun _ => WriteRes.quota) (mkSys (.num 0)) (.num 0)
    [Ev.set (.num 1), Ev.elapse, Ev.set (.num 2)] rfl rfl rfl

/-- Counterexample to C8 as stated: a write failing with a non-quota error is
*not* logged for diagnostics — the source's `catch` block contains no logging
call outside the quota branch, so the attempt is swallowed silently
(`errLogs` stays `0` although a failed attempt occurred). -/
theorem nonquota_failure_not_logged :
    (run (fun _ => WriteRes.other) (mkSys (.num 0)) [Ev.elapse]).attempts = [.num 0] ∧
    (run (fun _ => WriteRes.other) (mkSys (.num 0)) [Ev.elapse]).writes = [] ∧
    (run (fun _ => WriteRes.other) (mkSys (.num 0)) [Ev.elapse]).errLogs = 0 :=
  ⟨rfl, rfl, rfl⟩

/-- C8 as amended: a write failure that is not a capacity-exceeded condition
is silently swallowed (nothing is logged), does not transition the store to
`QuotaExceeded`, emits no user warning, and does not block future write
attempts: the next replacement arms the debounce timer again and its window
elapsing issues a fresh write attempt. -/
theorem nonquota_failure_transparent (backend : JValue → WriteRes) (s : Sys)
    (v w : JValue) (h1 : s.notified = false) (h2 : s.pending = some v)
    (ho : backend v = .other) :
    step backend s .elapse = { s with pending := none, attempts := s.attempts ++ [v] } ∧
    (step backend (step backend s .elapse) (.set w)).pending = some w ∧
    (run backend (step backend s .elapse) [.set w, .elapse]).attempts =
      s.attempts ++ [v, w] := by
  have hstep : step backend s .elapse =
      { s with pending := none, attempts := s.attempts ++ [v] } := by
    simp [step, h2, ho]
  refine ⟨hstep, ?_, ?_⟩
  · rw [hstep]; simp [step, h1]
  · rw [hstep]
    rcases hbw : backend w with _ | _ | _ <;> simp [run, step, h1, hbw]

/-- Witness for the amended C8: a failed non-quota write from the freshly
constructed store leaves the instance transparent — the next update re-arms
the timer and a second attempt is issued. -/
theorem nonquota_failure_transparent_witness :
    step (fun _ => WriteRes.other) (mkSys (.num 0)) .elapse =
      { mkSys (.num 0) with pending := none, attempts := [.num 0] } ∧
    (step (fun _ => WriteRes.other)
        (step (fun _ => WriteRes.other) (mkSys (.num 0)) .elapse)
        (.set (.num 1))).pending = some (.num 1) ∧
    (run (fun _ => WriteRes.other)
        (step (fun _ => WriteRes.other) (mkSys (.num 0)) .elapse)
        [.set (.num 1), .elapse]).attempts = [.num 0, .num 1] :=
  nonquota_failure_transparent (fun _ => WriteRes.other) (mkSys (.num 0))
    (.num 0) (.num 1) rfl rfl rfl

/-- C9.  At construction the effect runs once even with no caller update: the
debounce timer is armed for the initial (loaded-and-reconciled) state, and
once the window elapses that state is written durably. -/
theorem initial_write_scheduled (backend : JValue → WriteRes) (s0 : JValue)
    (hok : backend s0 = .ok) :
    (mkSys s0).pending = some s0 ∧
    run backend (mkSys s0) [Ev.elapse] =
      { state := s0, pending := none, notified := false,
        writes := [s0], attempts := [s0], warnings := 0, errLogs := 0 } := by
  refine ⟨rfl, ?_⟩
  simp [run, step, mkSys, hok]

/-- Witness for C9: the freshly constructed store with initial state `0` has
the timer armed and, after one elapsed window with no update, has written
exactly that state. -/
theorem initial_write_scheduled_witness :
    (mkSys (.num 0)).pending = some (.num 0) ∧
    run (fun _ => WriteRes.ok) (mkSys (.num 0)) [Ev.elapse] =
      { state := .num 0, pending := none, notified := false,
        writes := [.num 0], attempts := [.num 0], warnings := 0, errLogs := 0 } :=
  initial_write_scheduled (fun _ => WriteRes.ok) (.num 0) rfl

/-- Counterexample to C4 as stated: a bootstrap snapshot that is *present*
but falsy — here `null` in the slot — does not short-circuit initialization:
the truthiness test `if (window.INITIAL_APP_STATE)` fails, the durable
backend is read (flag `true`), and the resulting state comes from the
backend, not from `merge(null, defaults)`. -/
theorem bootstrap_falsy_reads_backend :
    (loadInitial
        { bootstrap := some .null, stored := .ok (some "s"),
          parse := fun _ => .ok (.obj [("a", .num 5)]) }
        (.obj [("a", .num 0)])).2 = true ∧
    (loadInitial
        { bootstrap := some .null, stored := .ok (some "s"),
          parse := fun _ => .ok (.obj [("a", .num 5)]) }
        (.obj [("a", .num 0)])).1 = .obj [("a", .num 5)] ∧
    mergeDefaults .null (.obj [("a", .num 0)]) = .obj [("a", .num 0)] ∧
    (JValue.obj [("a", .num 5)] ≠ .obj [("a", .num 0)]) :=
  ⟨rfl, rfl, rfl, by simp⟩

/-- C4 as amended: if the bootstrap snapshot slot holds a *truthy* value at
construction — in particular any structure — the durable backend is never
read and the initial state is the reconciliation of the snapshot against the
caller-supplied defaults. -/
theorem bootstrap_truthy_skips_backend (env : Env) (initialState v : JValue)
    (hb : env.bootstrap = some v) (ht : truthy v = true) :
    loadInitial env initialState = (mergeDefaults v initialState, false) := by
  unfold loadInitial
  rw [hb]
  simp [ht]

/-- Witness for the amended C4: with the snapshot `{a: 5}` published, the
backend (which would throw here) is untouched and the state is the merge of
the snapshot with the defaults. -/
theorem bootstrap_truthy_skips_backend_witness :
    loadInitial
        { bootstrap := some (.obj [("a", .num 5)]), stored := .err,
          parse := fun _ => .err }
        (.obj [("a", .num 0)]) = (.obj [("a", .num 5)], false) :=
  (bootstrap_truthy_skips_backend
      { bootstrap := some (.obj [("a", .num 5)]), stored := .err,
        parse := fun _ => .err }
      (.obj [("a", .num 0)]) (.obj [("a", .num 5)]) rfl rfl).trans rfl

/-- C5.  With no bootstrap snapshot, initialization returns the defaults
exactly — with the backend flagged as read — both when the stored text fails
to deserialize and when the backend read itself throws; in the model the
initializer is a total function, so the error can never propagate to the
caller or crash initialization. -/
theorem load_parse_failure_falls_back (env : Env) (initialState : JValue)
    (hb : env.bootstrap = none) :
    (∀ s, env.stored = .ok (some s) → env.parse s = .err →
        loadInitial env initialState = (initialState, true)) ∧
    (env.stored = .err → loadInitial env initialState = (initialState, true)) := by
  constructor
  · intro s hs hp
    unfold loadInitial afterBootstrap
    rw [hb, hs]
    by_cases hse : s = "" <;> simp [hse, hp]
  · intro hs
    unfold loadInitial afterBootstrap
    rw [hb, hs]

/-- Witness for C5: unparsable stored text and a throwing backend both fall
back to the defaults exactly. -/
theorem load_parse_failure_falls_back_witness :
    loadInitial { bootstrap := none, stored := .ok (some "x"), parse := fun _ => .err }
        (.obj [("a", .num 0)]) = (.obj [("a", .num 0)], true) ∧
    loadInitial { bootstrap := none, stored := .err, parse := fun _ => .err }
        (.obj [("a", .num 0)]) = (.obj [("a", .num 0)], true) :=
  ⟨(load_parse_failure_falls_back
      { bootstrap := none, stored := .ok (some "x"), parse := fun _ => .err }
      (.obj [("a", .num 0)]) rfl).1 "x" rfl rfl,
   (load_parse_failure_falls_back
      { bootstrap := none, stored := .err, parse := fun _ => .err }
      (.obj [("a", .num 0)]) rfl).2 rfl⟩

/-- Counterexample to C6 as stated: take the defaults `D = {a: {x: 0}}` in
the heap (the nested object `{x: 0}` at address 0, `D` itself at address 1).
`merge(null, D)` allocates the shallow copy `{ ...D }` at address 2, whose
field `a` still *references address 0* — the same nested object `D.a`.
Before mutation, `D.a.x` reads `0`; after the mutation `result.a.x = 1`
(a write through the result's own `a` reference), reading `D.a.x` through the
untouched defaults reference yields `1`: mutating a nested part of the result
mutated `D`. -/
theorem merge_null_shallow_alias :
    mergeH 9 [⟨false, [("x", .num 0)]⟩, ⟨false, [("a", .ref 0)]⟩] .null 1 =
      some ([⟨false, [("x", .num 0)]⟩, ⟨false, [("a", .ref 0)]⟩,
        ⟨false, [("a", .ref 0)]⟩], 2) ∧
    readH 9 [⟨false, [("x", .num 0)]⟩, ⟨false, [("a", .ref 0)]⟩, ⟨false, [("a", .ref 0)]⟩]
      (.ref 1) ["a", "x"] = some (.num 0) ∧
    readH 9 [⟨false, [("x", .num 0)]⟩, ⟨false, [("a", .ref 0)]⟩, ⟨false, [("a", .ref 0)]⟩]
      (.ref 2) ["a"] = some (.ref 0) ∧
    readH 9
      (writeFieldH
        [⟨false, [("x", .num 0)]⟩, ⟨false, [("a", .ref 0)]⟩, ⟨false, [("a", .ref 0)]⟩]
        0 "x" (.num 1))
      (.ref 2) ["a", "x"] = some (.num 1) ∧
    readH 9
      (writeFieldH
        [⟨false, [("x", .num 0)]⟩, ⟨false, [("a", .ref 0)]⟩, ⟨false, [("a", .ref 0)]⟩]
        0 "x" (.num 1))
      (.ref 1) ["a", "x"] = some (.num 1) :=
  ⟨rfl, rfl, rfl, rfl, rfl⟩

/-- C6 as amended: `merge(loaded, D)` for *any* non-structure loaded value —
`null`, `undefined`, or any primitive, i.e. anything failing the
`!loaded || typeof loaded !== 'object'` guard — returns a *fresh top-level*
object: a newly allocated cell holding a shallow copy of `D`'s field list.
Hence assigning to the result's own (top-level) fields never changes any
pre-existing heap object, `D` included; but the copy is shallow: nested
structures are shared by reference between the result and `D` (as the
counterexample records), so mutating them through the result mutates `D`. -/
theorem merge_nonstructure_fresh_toplevel (h : Heap) (loaded : HVal) (da : Nat)
    (fuel : Nat) (hm : hIsMergeable loaded = false) :
    mergeH (fuel + 1) h loaded da = some (h ++ [⟨false, hFieldsAt h da⟩], h.length) ∧
    ∀ (k : String) (v : HVal) (a : Nat), a < h.length →
      (writeFieldH (h ++ [⟨false, hFieldsAt h da⟩]) h.length k v)[a]? = h[a]? := by
  constructor
  · simp [mergeH, hm]
  · intro k v a ha
    unfold writeFieldH
    have hlen : (h ++ [(⟨false, hFieldsAt h da⟩ : HObj)])[h.length]? =
        some ⟨false, hFieldsAt h da⟩ := by
      rw [List.getElem?_append_right (Nat.le_refl _)]
      simp
    rw [hlen]
    have hne : h.length ≠ a := Nat.ne_of_gt ha
    rw [List.getElem?_set_ne hne]
    rw [List.getElem?_append, if_pos ha]

/-- Witness for the amended C6: in the concrete two-object heap of the
counterexample, the merge result — for the loaded value `null` and equally
for the loaded primitive `7` — is the expected fresh allocation at
address 2, and overwriting the result's top-level field `a` leaves both
pre-existing heap cells (the defaults object and its nested object)
untouched. -/
theorem merge_nonstructure_fresh_toplevel_witness :
    mergeH 9 [⟨false, [("x", .num 0)]⟩, ⟨false, [("a", .ref 0)]⟩] .null 1 =
      some ([⟨false, [("x", .num 0)]⟩, ⟨false, [("a", .ref 0)]⟩,
        ⟨false, [("a", .ref 0)]⟩], 2) ∧
    mergeH 9 [⟨false, [("x", .num 0)]⟩, ⟨false, [("a", .ref 0)]⟩] (.num 7) 1 =
      some ([⟨false, [("x", .num 0)]⟩, ⟨false, [("a", .ref 0)]⟩,
        ⟨false, [("a", .ref 0)]⟩], 2) ∧
    (writeFieldH
        ([⟨false, [("x", .num 0)]⟩, ⟨false, [("a", .ref 0)]⟩] ++
          [⟨false, hFieldsAt [⟨false, [("x", .num 0)]⟩, ⟨false, [("a", .ref 0)]⟩] 1⟩])
        2 "a" (.num 3))[0]? =
      [(⟨false, [("x", .num 0)]⟩ : HObj), ⟨false, [("a", .ref 0)]⟩][0]? ∧
    (writeFieldH
        ([⟨false, [("x", .num 0)]⟩, ⟨false, [("a", .ref 0)]⟩] ++
          [⟨false, hFieldsAt [⟨false, [("x", .num 0)]⟩, ⟨false, [("a", .ref 0)]⟩] 1⟩])
        2 "a" (.num 3))[1]? =
      [(⟨false, [("x", .num 0)]⟩ : HObj), ⟨false, [("a", .ref 0)]⟩][1]? :=
  ⟨(merge_nonstructure_fresh_toplevel
      [⟨false, [("x", .num 0)]⟩, ⟨false, [("a", .ref 0)]⟩] .null 1 8 rfl).1,
   (merge_nonstructure_fresh_toplevel
      [⟨false, [("x", .num 0)]⟩, ⟨false, [("a", .ref 0)]⟩] (.num 7) 1 8 rfl).1,
   (merge_nonstructure_fresh_toplevel
      [⟨false, [("x", .num 0)]⟩, ⟨false, [("a", .ref 0)]⟩] .null 1 8 rfl).2
     "a" (.num 3) 0 (by decide),
   (merge_nonstructure_fresh_toplevel
      [⟨false, [("x", .num 0)]⟩, ⟨false, [("a", .ref 0)]⟩] .null 1 8 rfl).2
     "a" (.num 3) 1 (by decide)⟩

end Aria
